import Mathlib

/-!
Verification of the Paradrop update-execution engine and chute data model
against their natural-language specification.

Each Lean definition is a shallow embedding of the corresponding Python
function from the repository; python exceptions are modelled with
`Except` (or explicit result inductives), python dicts with association
lists, and the identity of plan-operation function objects with natural
number identifiers.
-/

namespace Paradrop

/-- A python `NameError`: evaluation of an identifier that is not bound in
any enclosing scope.  Carries the name that failed to resolve. -/
inductive PyError where
  | nameError (missing : String)
  deriving DecidableEq, Repr

/-! ## Chute data model (daemon/paradrop/core/chute/chute.py)

Service sub-records are opaque to the claims considered here, so a service
is represented by a bare identifier.  The `services` dict is an association
list from service name to service; python dict keys are unique, but no
claim below needs that invariant. -/

/-- Embedding of `Chute.__init__`: the fields set by the constructor.
`name`, `description`, `owner`, `version` default to python `None`
(here `Option.none`); `state` defaults to `"running"`; `services` starts
empty and is filled by `add_service`. -/
structure Chute where
  name : Option String := none
  description : Option String := none
  owner : Option String := none
  state : String := "running"
  version : Option String := none
  services : List (String × Nat) := []
  deriving DecidableEq, Repr

/-- Embedding of `Chute.isValid`: python
`if (not self.name or len(self.name) == 0): return False` / `return True`.
A `None` name is falsy; an empty string is falsy and has length 0. -/
def Chute.isValid (c : Chute) : Bool :=
  match c.name with
  | none => false
  | some s => if s.isEmpty || s.length == 0 then false else true

/-- Embedding of python `min(self.services)`: the minimum over the keys of
the dict, i.e. the lexicographically smallest service name; `none` models
the `ValueError` that `min` raises on an empty sequence. -/
def minKey : List (String × Nat) → Option String
  | [] => none
  | (k, _) :: rest =>
    match minKey rest with
    | none => some k
    | some m => some (min k m)

/-- Embedding of `Chute.get_default_service`:
`if "main" in self.services: return self.services['main']` and otherwise
`name = min(self.services); return self.services[name]`.  The error cases
are the exceptions python raises: `min` on an empty dict raises
`ValueError`; indexing a dict with a missing key raises `KeyError`
(the latter is unreachable, since `min` returns one of the keys). -/
def Chute.get_default_service (c : Chute) : Except String Nat :=
  match c.services.lookup "main" with
  | some s => Except.ok s
  | none =>
    match minKey c.services with
    | none => Except.error "ValueError: min() arg is an empty sequence"
    | some k =>
      match c.services.lookup k with
      | some s => Except.ok s
      | none => Except.error "KeyError"

lemma minKey_eq_none_iff {l : List (String × Nat)} : minKey l = none ↔ l = [] := by
  cases l with
  | nil => simp [minKey]
  | cons p rest =>
    simp only [minKey]
    cases minKey rest <;> simp

lemma minKey_mem {l : List (String × Nat)} {k : String} (h : minKey l = some k) :
    k ∈ l.map Prod.fst := by
  induction l generalizing k with
  | nil => simp [minKey] at h
  | cons p rest ih =>
    simp only [minKey] at h
    cases hr : minKey rest with
    | none => rw [hr] at h; simp at h; simp [h]
    | some m =>
      rw [hr] at h
      simp only [Option.some.injEq] at h
      rcases min_cases p.1 m with ⟨hmin, _⟩ | ⟨hmin, _⟩
      · rw [hmin] at h; simp [h]
      · rw [hmin] at h
        right
        exact h ▸ ih hr

lemma minKey_le {l : List (String × Nat)} {k : String} (h : minKey l = some k) :
    ∀ k' ∈ l.map Prod.fst, k ≤ k' := by
  induction l generalizing k with
  | nil => simp [minKey] at h
  | cons p rest ih =>
    simp only [minKey] at h
    intro k' hk'
    simp only [List.map_cons, List.mem_cons] at hk'
    cases hr : minKey rest with
    | none =>
      rw [hr] at h
      simp only [Option.some.injEq] at h
      rcases hk' with hk' | hk'
      · exact le_of_eq (by rw [← h, hk'])
      · have : rest = [] := minKey_eq_none_iff.mp hr
        subst this
        simp at hk'
    | some m =>
      rw [hr] at h
      simp only [Option.some.injEq] at h
      rcases hk' with hk' | hk'
      · rw [← h, hk']; exact min_le_left _ _
      · rw [← h]
        exact le_trans (min_le_right _ _) (ih hr k' hk')

lemma lookup_isSome_of_mem_keys {l : List (String × Nat)} {k : String}
    (h : k ∈ l.map Prod.fst) : (l.lookup k).isSome := by
  induction l with
  | nil => simp at h
  | cons p rest ih =>
    simp only [List.map_cons, List.mem_cons] at h
    by_cases hk : k = p.1
    · simp [List.lookup, hk]
    · have hb : (k == p.1) = false := beq_eq_false_iff_ne.mpr hk
      rcases h with h | h
      · exact absurd h hk
      · obtain ⟨p1, p2⟩ := p
        simpa [List.lookup, hb] using ih h


/-! ## Power operations (src/paradrop/lib/config/power.py)

`reboot` and `shutdown` call `subprocess.call` on an OS shutdown command
and inspect its integer exit status.  The embedding takes that status as
an explicit parameter.  The Update object handled by these operations is
not part of the sources; it is reduced to the one capability the
operations use. -/

namespace Power

/-- Modelled from the spec: the update's `progress` method "report[s] a
human-readable progress message on the update"; the embedding keeps the
ordered list of progress messages reported so far. -/
structure PUpdate where
  messages : List String := []
  deriving DecidableEq, Repr

/-- Embedding of `power.reboot`: run `shutdown -r +1`; on exit status 0
report a progress message, otherwise raise
`Exception("shutdown command failed, returned {status}")`. -/
def reboot (status : Int) (u : PUpdate) : Except String PUpdate :=
  if status = 0 then
    Except.ok { u with messages := u.messages ++ ["Rebooting in 60 seconds."] }
  else
    Except.error ("shutdown command failed, returned " ++ toString status)

/-- Embedding of `power.shutdown`: run `shutdown -h +1`; on exit status 0
report a progress message, otherwise raise the same exception. -/
def shutdown (status : Int) (u : PUpdate) : Except String PUpdate :=
  if status = 0 then
    Except.ok { u with messages := u.messages ++ ["Halting in 60 seconds."] }
  else
    Except.error ("shutdown command failed, returned " ++ toString status)

end Power

/-! ## Router-control plan generator (src/paradrop/lib/plan/router.py) -/

namespace Router

/-- The plan operations the router-control generator can schedule,
identified by the function object the python module passes to
`addPlans`. -/
inductive RouterFunc where
  | removeAllContainers
  | removeAllChutes
  | powerReboot
  | powerShutdown
  deriving DecidableEq, Repr

/-- Modelled from the spec: the `plangraph` stage constants are not in
the sources; stages are "ordinal[s] from a fixed, globally meaningful
sequence", the stop stage preceding the chute-save stage. -/
def STATE_CALL_STOP : Nat := 1

/-- Modelled from the spec: stage ordinal of the chute-save step, later
than `STATE_CALL_STOP`. -/
def STATE_SAVE_CHUTE : Nat := 2

/-- One plan-graph entry as scheduled by `addPlans(stage, (func,))`. -/
structure RPlan where
  stage : Nat
  func : RouterFunc
  deriving DecidableEq, Repr

/-- The slice of the Update object that `router.generatePlans` touches. -/
structure RUpdate where
  updateType : String
  plans : List RPlan := []
  deriving DecidableEq, Repr

/-- Modelled from the spec: `PlanMap.addPlans` "appends one entry tagged
with `stage`". -/
def addPlans (plans : List RPlan) (stage : Nat) (func : RouterFunc) : List RPlan :=
  plans ++ [{ stage := stage, func := func }]

/-- Embedding of `router.generatePlans`.  The python function mutates
`update.plans` in place and falls through (returning `None`, i.e. no
error); the embedding returns the updated update.  In the `"shutdown"`
branch the python source reads `uphane.plans.addPlans(...)`, and `uphane`
is bound nowhere, so evaluating that branch raises a `NameError`. -/
def generatePlans (u : RUpdate) : Except PyError RUpdate :=
  if u.updateType = "factoryreset" then
    let plans1 := addPlans u.plans STATE_CALL_STOP RouterFunc.removeAllContainers
    let plans2 := addPlans plans1 STATE_SAVE_CHUTE RouterFunc.removeAllChutes
    Except.ok { u with plans := plans2 }
  else if u.updateType = "reboot" then
    Except.ok { u with plans := addPlans u.plans STATE_CALL_STOP RouterFunc.powerReboot }
  else if u.updateType = "shutdown" then
    Except.error (PyError.nameError "uphane")
  else
    Except.ok u

end Router

/-! ## Update execution engine (paradrop/backend/exc/executionplan.py)

Plan operations are opaque python function objects; the embedding
identifies them by `Nat` identifiers and takes the behavior of a call
`func(args)` as an explicit map from identifiers and argument bundles to
call outcomes.  The `PlanMap` (`plangraph` module) is not among the
sources, so its operations are modelled from the spec. -/

namespace Exc

/-- One record appended to `update.responses` when an executed operation
faults: python `{'exception': str(e), 'traceback': traceback.format_exc()}`. -/
structure Response where
  exception : String
  traceback : String
  deriving DecidableEq, Repr

/-- One plan entry, the tuple `(ch, func, args)` that `getNextTodo` and
`getNextAbort` return; `func` identifies the operation function object
and `args` its argument bundle. -/
structure PlanEntry where
  ch : Nat
  func : Nat
  args : Nat
  deriving DecidableEq, Repr

/-- Modelled from the spec: the `plangraph.PlanMap` state — pending
entries held in stage-sorted execution order (aggregation has already
sorted them), the already-run record in execution order, and the skip
set of operation references. -/
structure PlanMap where
  pending : List PlanEntry
  executed : List PlanEntry
  skips : List Nat
  deriving DecidableEq, Repr

/-- The slice of the Update object the engine touches: its plan map and
its accumulating response list. -/
structure Update where
  plans : PlanMap
  responses : List Response
  deriving DecidableEq, Repr

/-- What an executed operation returns: python `None`, a single function
reference, or a list of function references (the duck-typed `skipme`
value in `executePlans`). -/
inductive SkipRet where
  | pyNone
  | fn (f : Nat)
  | lst (fs : List Nat)
  deriving DecidableEq, Repr

/-- Python truthiness of the `skipme` return value: `None` is falsy, a
function object is truthy, a list is truthy iff non-empty. -/
def SkipRet.truthy : SkipRet → Bool
  | .pyNone => false
  | .fn _ => true
  | .lst fs => !fs.isEmpty

/-- The operation references named by a `skipme` value, after
`executePlans` normalises a single function into a one-element list. -/
def SkipRet.refs : SkipRet → List Nat
  | .pyNone => []
  | .fn f => [f]
  | .lst fs => fs

/-- Outcome of one call `func(args)`: a normal return carrying the
`skipme` value, or a raised exception with message and traceback. -/
inductive CallResult where
  | ok (ret : SkipRet)
  | exc (msg : String) (trace : String)
  deriving DecidableEq, Repr

/-- The behavior of operation calls: what `func(args)` does for each
function identifier and argument bundle. -/
abbrev Behavior := Nat → Nat → CallResult

/-- Modelled from the spec: the search inside `getNextTodo` — walk the
pending entries in order, discarding any whose operation is in the skip
set, and detach the first eligible one together with the remaining
pending entries. -/
def nextTodoAux (skips : List Nat) : List PlanEntry → Option (PlanEntry × List PlanEntry)
  | [] => none
  | e :: rest => if e.func ∈ skips then nextTodoAux skips rest else some (e, rest)

/-- Modelled from the spec: `PlanMap.getNextTodo` — remove and return the
next pending entry not in the skip set (skipped entries are discarded,
not recorded); the returned entry is appended to the already-run record;
`none` once no eligible entry remains. -/
def getNextTodo (pm : PlanMap) : Option (PlanEntry × PlanMap) :=
  match nextTodoAux pm.skips pm.pending with
  | none => none
  | some (e, rest) =>
    some (e, { pm with pending := rest, executed := pm.executed ++ [e] })

/-- Modelled from the spec: `PlanMap.getNextAbort` — pop entries from the
already-run record in strict reverse order of execution, `none` once the
record is empty. -/
def getNextAbort (pm : PlanMap) : Option (PlanEntry × PlanMap) :=
  match pm.executed.getLast? with
  | none => none
  | some e => some (e, { pm with executed := pm.executed.dropLast })

/-- Modelled from the spec: `PlanMap.registerSkip` — add an operation
reference to the skip set. -/
def registerSkip (pm : PlanMap) (f : Nat) : PlanMap :=
  { pm with skips := pm.skips ++ [f] }

lemma nextTodoAux_length {skips : List Nat} {l : List PlanEntry} {e : PlanEntry}
    {rest : List PlanEntry} (h : nextTodoAux skips l = some (e, rest)) :
    rest.length < l.length := by
  induction l with
  | nil => simp [nextTodoAux] at h
  | cons x xs ih =>
    simp only [nextTodoAux] at h
    by_cases hx : x.func ∈ skips
    · rw [if_pos hx] at h
      exact Nat.lt_trans (ih h) (Nat.lt_succ_self _)
    · rw [if_neg hx] at h
      simp only [Option.some.injEq, Prod.mk.injEq] at h
      rw [← h.2]
      exact Nat.lt_succ_self _

lemma nextTodoAux_not_skipped {skips : List Nat} {l : List PlanEntry} {e : PlanEntry}
    {rest : List PlanEntry} (h : nextTodoAux skips l = some (e, rest)) :
    e.func ∉ skips := by
  induction l with
  | nil => simp [nextTodoAux] at h
  | cons x xs ih =>
    simp only [nextTodoAux] at h
    by_cases hx : x.func ∈ skips
    · rw [if_pos hx] at h
      exact ih h
    · rw [if_neg hx] at h
      simp only [Option.some.injEq, Prod.mk.injEq] at h
      rw [← h.1]
      exact hx

lemma getNextTodo_pending_length {pm : PlanMap} {e : PlanEntry} {pm' : PlanMap}
    (h : getNextTodo pm = some (e, pm')) :
    pm'.pending.length < pm.pending.length := by
  unfold getNextTodo at h
  cases ha : nextTodoAux pm.skips pm.pending with
  | none => rw [ha] at h; exact absurd h (by simp)
  | some p =>
    obtain ⟨e1, rest⟩ := p
    rw [ha] at h
    simp only [Option.some.injEq, Prod.mk.injEq] at h
    rw [← h.2]
    exact nextTodoAux_length ha

lemma getNextTodo_spec {pm : PlanMap} {e : PlanEntry} {pm' : PlanMap}
    (h : getNextTodo pm = some (e, pm')) :
    pm'.executed = pm.executed ++ [e] ∧ pm'.skips = pm.skips ∧ e.func ∉ pm.skips := by
  unfold getNextTodo at h
  cases ha : nextTodoAux pm.skips pm.pending with
  | none => rw [ha] at h; exact absurd h (by simp)
  | some p =>
    obtain ⟨e1, rest⟩ := p
    rw [ha] at h
    simp only [Option.some.injEq, Prod.mk.injEq] at h
    obtain ⟨he, hpm⟩ := h
    subst he
    rw [← hpm]
    exact ⟨rfl, rfl, nextTodoAux_not_skipped ha⟩

lemma getNextAbort_executed_length {pm : PlanMap} {e : PlanEntry} {pm' : PlanMap}
    (h : getNextAbort pm = some (e, pm')) :
    pm'.executed.length < pm.executed.length := by
  unfold getNextAbort at h
  cases hl : pm.executed.getLast? with
  | none => rw [hl] at h; exact absurd h (by simp)
  | some x =>
    rw [hl] at h
    simp only [Option.some.injEq, Prod.mk.injEq] at h
    have hne : pm.executed ≠ [] := by
      intro hnil
      rw [hnil] at hl
      simp at hl
    rw [← h.2]
    simp only [List.length_dropLast]
    exact Nat.sub_lt (List.length_pos.mpr hne) Nat.one_pos

lemma foldl_registerSkip_pending (fs : List Nat) (pm : PlanMap) :
    (fs.foldl registerSkip pm).pending = pm.pending := by
  induction fs generalizing pm with
  | nil => rfl
  | cons f rest ih => simpa [registerSkip] using ih (registerSkip pm f)

lemma foldl_registerSkip_executed (fs : List Nat) (pm : PlanMap) :
    (fs.foldl registerSkip pm).executed = pm.executed := by
  induction fs generalizing pm with
  | nil => rfl
  | cons f rest ih => simpa [registerSkip] using ih (registerSkip pm f)

lemma foldl_registerSkip_mem_mono {X : Nat} (fs : List Nat) (pm : PlanMap)
    (h : X ∈ pm.skips) : X ∈ (fs.foldl registerSkip pm).skips := by
  induction fs generalizing pm with
  | nil => exact h
  | cons f rest ih =>
    exact ih (registerSkip pm f) (by simp [registerSkip, h])

lemma foldl_registerSkip_mem_of_mem {X : Nat} {fs : List Nat} (pm : PlanMap)
    (h : X ∈ fs) : X ∈ (fs.foldl registerSkip pm).skips := by
  induction fs generalizing pm with
  | nil => simp at h
  | cons f rest ih =>
    rcases List.mem_cons.mp h with h | h
    · subst h
      exact foldl_registerSkip_mem_mono rest (registerSkip pm X) (by simp [registerSkip])
    · exact ih (registerSkip pm f) h

/-- Embedding of `executePlans`: repeatedly fetch the next todo entry and
invoke its operation; on a raised exception append one
`{exception, traceback}` record to `update.responses` and return `True`;
interpret a truthy return value as one or more operation references and
`registerSkip` each of them; return `False` once no todo entry remains. -/
def executePlans (beh : Behavior) (u : Update) : Bool × Update :=
  match h : getNextTodo u.plans with
  | none => (false, u)
  | some (e, pm') =>
    match beh e.func e.args with
    | CallResult.exc msg trace =>
      (true, { plans := pm', responses := u.responses ++ [⟨msg, trace⟩] })
    | CallResult.ok skipme =>
      if skipme.truthy then
        executePlans beh { plans := skipme.refs.foldl registerSkip pm', responses := u.responses }
      else
        executePlans beh { plans := pm', responses := u.responses }
termination_by u.plans.pending.length
decreasing_by
  · simp only [foldl_registerSkip_pending]
    exact getNextTodo_pending_length h
  · exact getNextTodo_pending_length h

/-- Outcome of a run of `abortPlans`: a normal return with the python
boolean (`True` in error, `False` once the abort record is exhausted), or
an exception propagating out of the function. -/
inductive AbortResult where
  | ret (b : Bool) (u : Update)
  | raised (e : PyError) (u : Update)
  deriving DecidableEq, Repr

/-- Embedding of `abortPlans`: repeatedly fetch the next abort entry and
invoke its compensating operation; a successful call clears `sameError`.
When a call raises: with `sameError` set the function returns `True`;
otherwise the handler executes `responseMessages.append(...)`, and since
`responseMessages` is bound nowhere in the module, that line raises a
`NameError` which propagates out of `abortPlans` (the state carried by
`raised` is the state at the moment of propagation: the faulting entry
already popped, no response recorded). -/
def abortPlans (beh : Behavior) (u : Update) (sameError : Bool) : AbortResult :=
  match h : getNextAbort u.plans with
  | none => AbortResult.ret false u
  | some (e, pm') =>
    match beh e.func e.args with
    | CallResult.ok _ => abortPlans beh { u with plans := pm' } false
    | CallResult.exc _ _ =>
      if sameError then AbortResult.ret true { u with plans := pm' }
      else AbortResult.raised (PyError.nameError "responseMessages") { u with plans := pm' }
termination_by u.plans.executed.length
decreasing_by
  exact getNextAbort_executed_length h

lemma refs_eq_nil_of_not_truthy {r : SkipRet} (h : r.truthy = false) : r.refs = [] := by
  cases r with
  | pyNone => rfl
  | fn f => simp [SkipRet.truthy] at h
  | lst fs =>
    simp only [SkipRet.truthy, Bool.not_eq_false'] at h
    simp [SkipRet.refs, List.isEmpty_iff.mp h]

lemma executePlans_none (beh : Behavior) (u : Update)
    (h : getNextTodo u.plans = none) : executePlans beh u = (false, u) := by
  rw [executePlans.eq_def]
  split
  · rfl
  · rename_i e1 pm1 heq
    rw [h] at heq
    exact Option.noConfusion heq

lemma executePlans_exc (beh : Behavior) (u : Update) (e : PlanEntry) (pm' : PlanMap)
    (msg trace : String) (h1 : getNextTodo u.plans = some (e, pm'))
    (h2 : beh e.func e.args = CallResult.exc msg trace) :
    executePlans beh u = (true, { plans := pm', responses := u.responses ++ [⟨msg, trace⟩] }) := by
  rw [executePlans.eq_def]
  split
  · rename_i heq
    rw [h1] at heq
    exact Option.noConfusion heq
  · rename_i e1 pm1 heq
    rw [h1] at heq
    simp only [Option.some.injEq, Prod.mk.injEq] at heq
    obtain ⟨he, hpm⟩ := heq
    subst he hpm
    rw [h2]

lemma executePlans_ok (beh : Behavior) (u : Update) (e : PlanEntry) (pm' : PlanMap)
    (r : SkipRet) (h1 : getNextTodo u.plans = some (e, pm'))
    (h2 : beh e.func e.args = CallResult.ok r) :
    executePlans beh u
      = executePlans beh { plans := r.refs.foldl registerSkip pm', responses := u.responses } := by
  rw [executePlans.eq_def]
  split
  · rename_i heq
    rw [h1] at heq
    exact Option.noConfusion heq
  · rename_i e1 pm1 heq
    rw [h1] at heq
    simp only [Option.some.injEq, Prod.mk.injEq] at heq
    obtain ⟨he, hpm⟩ := heq
    subst he hpm
    rw [h2]
    cases ht : r.truthy with
    | true => simp only [ht, if_true]
    | false =>
      simp [ht, refs_eq_nil_of_not_truthy ht]

lemma abortPlans_none (beh : Behavior) (u : Update) (sameError : Bool)
    (h : getNextAbort u.plans = none) : abortPlans beh u sameError = AbortResult.ret false u := by
  rw [abortPlans.eq_def]
  split
  · rfl
  · rename_i e1 pm1 heq
    rw [h] at heq
    exact Option.noConfusion heq

lemma abortPlans_ok_step (beh : Behavior) (u : Update) (sameError : Bool) (e : PlanEntry)
    (pm' : PlanMap) (r : SkipRet) (h1 : getNextAbort u.plans = some (e, pm'))
    (h2 : beh e.func e.args = CallResult.ok r) :
    abortPlans beh u sameError = abortPlans beh { u with plans := pm' } false := by
  rw [abortPlans.eq_def]
  split
  · rename_i heq
    rw [h1] at heq
    exact Option.noConfusion heq
  · rename_i e1 pm1 heq
    rw [h1] at heq
    simp only [Option.some.injEq, Prod.mk.injEq] at heq
    obtain ⟨he, hpm⟩ := heq
    subst he hpm
    rw [h2]

lemma abortPlans_exc_first (beh : Behavior) (u : Update) (e : PlanEntry)
    (pm' : PlanMap) (msg trace : String) (h1 : getNextAbort u.plans = some (e, pm'))
    (h2 : beh e.func e.args = CallResult.exc msg trace) :
    abortPlans beh u false
      = AbortResult.raised (PyError.nameError "responseMessages") { u with plans := pm' } := by
  rw [abortPlans.eq_def]
  split
  · rename_i heq
    rw [h1] at heq
    exact Option.noConfusion heq
  · rename_i e1 pm1 heq
    rw [h1] at heq
    simp only [Option.some.injEq, Prod.mk.injEq] at heq
    obtain ⟨he, hpm⟩ := heq
    subst he hpm
    rw [h2]
    rfl

lemma executePlans_no_skipped_executed (beh : Behavior) (X : Nat) :
    ∀ n (u : Update), u.plans.pending.length ≤ n → X ∈ u.plans.skips →
      ∃ rest, (executePlans beh u).2.plans.executed = u.plans.executed ++ rest ∧
        ∀ e ∈ rest, e.func ≠ X := by
  intro n
  induction n with
  | zero =>
    intro u hlen hX
    have hnil : u.plans.pending = [] := List.length_eq_zero.mp (Nat.le_zero.mp hlen)
    have hnone : getNextTodo u.plans = none := by
      unfold getNextTodo
      rw [hnil]
      rfl
    rw [executePlans_none beh u hnone]
    exact ⟨[], by simp, by simp⟩
  | succ n ih =>
    intro u hlen hX
    cases hg : getNextTodo u.plans with
    | none =>
      rw [executePlans_none beh u hg]
      exact ⟨[], by simp, by simp⟩
    | some p =>
      obtain ⟨e, pm'⟩ := p
      obtain ⟨hex, hsk, hnsk⟩ := getNextTodo_spec hg
      have hfX : e.func ≠ X := fun hq => hnsk (hq ▸ hX)
      cases hbeh : beh e.func e.args with
      | exc msg trace =>
        rw [executePlans_exc beh u e pm' msg trace hg hbeh]
        refine ⟨[e], by simpa using hex, ?_⟩
        intro e' he'
        rw [List.mem_singleton.mp he']
        exact hfX
      | ok r =>
        rw [executePlans_ok beh u e pm' r hg hbeh]
        have h1 : (r.refs.foldl registerSkip pm').pending.length ≤ n := by
          rw [foldl_registerSkip_pending]
          exact Nat.lt_succ_iff.mp (Nat.lt_of_lt_of_le (getNextTodo_pending_length hg) hlen)
        have h2 : X ∈ (r.refs.foldl registerSkip pm').skips :=
          foldl_registerSkip_mem_mono r.refs pm' (hsk ▸ hX)
        obtain ⟨rest, hrest, hrX⟩ :=
          ih { plans := r.refs.foldl registerSkip pm', responses := u.responses } h1 h2
        refine ⟨e :: rest, ?_, ?_⟩
        · rw [hrest]
          show (r.refs.foldl registerSkip pm').executed ++ rest = _
          rw [foldl_registerSkip_executed, hex]
          simp
        · intro e' he'
          rcases List.mem_cons.mp he' with he' | he'
          · rw [he']
            exact hfX
          · exact hrX e' he'

/-- A behavior used to exercise the abort path on concrete runs:
operations 1 and 2 fault, every other operation returns `None`. -/
def abortDemoBeh : Behavior := fun f _ =>
  if f = 1 ∨ f = 2 then CallResult.exc "boom" "tb" else CallResult.ok SkipRet.pyNone

/-- A behavior used to exercise the skip mechanism on concrete runs:
operation 10 returns a reference to operation 20, operation 20 faults,
every other operation returns `None`. -/
def skipDemoBeh : Behavior := fun f _ =>
  if f = 10 then CallResult.ok (SkipRet.fn 20)
  else if f = 20 then CallResult.exc "boom" "tb"
  else CallResult.ok SkipRet.pyNone

end Exc

/-- C7: each power operation reports its progress message and returns
normally exactly when the OS command exits with status 0, and raises a
fault exactly when the status is non-zero. -/
theorem power_reboot_shutdown_spec (status : Int) (u : Power.PUpdate) :
    (status = 0 →
      Power.reboot status u
          = Except.ok { u with messages := u.messages ++ ["Rebooting in 60 seconds."] } ∧
        Power.shutdown status u
          = Except.ok { u with messages := u.messages ++ ["Halting in 60 seconds."] }) ∧
      ((Power.reboot status u).isOk = false ↔ status ≠ 0) ∧
      ((Power.shutdown status u).isOk = false ↔ status ≠ 0) := by
  refine ⟨fun h => ?_, ?_, ?_⟩
  · subst h
    exact ⟨rfl, rfl⟩
  · by_cases h : status = 0 <;> simp [Power.reboot, h, Except.isOk, Except.toBool]
  · by_cases h : status = 0 <;> simp [Power.shutdown, h, Except.isOk, Except.toBool]

/-- C7 witness: with exit status 0 both operations succeed and report
their messages; with exit status 1 both fault. -/
theorem power_reboot_shutdown_spec_witness :
    Power.reboot 0 {} = Except.ok { messages := ["Rebooting in 60 seconds."] } ∧
      Power.shutdown 0 {} = Except.ok { messages := ["Halting in 60 seconds."] } ∧
      (Power.reboot 1 {}).isOk = false ∧
      (Power.shutdown 1 {}).isOk = false :=
  ⟨((power_reboot_shutdown_spec 0 {}).1 rfl).1,
    ((power_reboot_shutdown_spec 0 {}).1 rfl).2,
    (power_reboot_shutdown_spec 1 {}).2.1.mpr (by decide),
    (power_reboot_shutdown_spec 1 {}).2.2.mpr (by decide)⟩

/-- C6: the claim says both `"reboot"` and `"shutdown"` add exactly one
stop-stage plan entry and return without error.  That holds for
`"reboot"`, but the `"shutdown"` branch evaluates the unbound name
`uphane` and raises a `NameError`, adding no plan entry. -/
theorem router_generatePlans_shutdown_bug :
    Router.generatePlans ⟨"reboot", []⟩
        = Except.ok ⟨"reboot", [⟨Router.STATE_CALL_STOP, Router.RouterFunc.powerReboot⟩]⟩ ∧
      Router.generatePlans ⟨"shutdown", []⟩
        = Except.error (PyError.nameError "uphane") :=
  ⟨rfl, rfl⟩

namespace Exc

/-- C4: when an invoked operation raises, `executePlans` appends exactly
one `{exception, traceback}` record to `update.responses`, returns `True`
and executes no further todo entry (the final state is exactly the state
at the fault); when `getNextTodo` reports no eligible entry remaining,
`executePlans` returns `False` with the update untouched. -/
theorem executePlans_fault_stops (beh : Behavior) (u : Update) :
    (∀ e pm' msg trace, getNextTodo u.plans = some (e, pm') →
        beh e.func e.args = CallResult.exc msg trace →
        executePlans beh u
          = (true, { plans := pm', responses := u.responses ++ [⟨msg, trace⟩] })) ∧
      (getNextTodo u.plans = none → executePlans beh u = (false, u)) :=
  ⟨fun e pm' msg trace h1 h2 => executePlans_exc beh u e pm' msg trace h1 h2,
    executePlans_none beh u⟩

/-- C4 witness: a concrete run whose first operation (identifier 1)
faults — one response record, `True` returned, the second pending entry
left unexecuted. -/
theorem executePlans_fault_stops_witness :
    executePlans abortDemoBeh ⟨⟨[⟨0, 1, 0⟩, ⟨0, 5, 0⟩], [], []⟩, []⟩
      = (true, ⟨⟨[⟨0, 5, 0⟩], [⟨0, 1, 0⟩], []⟩, [⟨"boom", "tb"⟩]⟩) :=
  (executePlans_fault_stops abortDemoBeh ⟨⟨[⟨0, 1, 0⟩, ⟨0, 5, 0⟩], [], []⟩, []⟩).1
    ⟨0, 1, 0⟩ ⟨[⟨0, 5, 0⟩], [⟨0, 1, 0⟩], []⟩ "boom" "tb" rfl rfl

/-- C5: when an executed operation returns a non-empty value, its
operation references are passed to `registerSkip`, and from that point on
no entry whose operation matches such a reference is executed or added to
the abort record: the already-run record at the fault/end of the run is
the record at the skip-registration step followed only by entries whose
operation differs from the registered reference. -/
theorem executePlans_skip_references (beh : Behavior) (u : Update) (e : PlanEntry)
    (pm' : PlanMap) (r : SkipRet) (X : Nat)
    (h1 : getNextTodo u.plans = some (e, pm'))
    (h2 : beh e.func e.args = CallResult.ok r)
    (h3 : X ∈ r.refs) :
    (executePlans beh u).2.plans.executed.take pm'.executed.length = pm'.executed ∧
      ((executePlans beh u).2.plans.executed.drop pm'.executed.length).all
        (fun e' => e'.func != X) = true := by
  rw [executePlans_ok beh u e pm' r h1 h2]
  have hX1 : X ∈ (r.refs.foldl registerSkip pm').skips :=
    foldl_registerSkip_mem_of_mem pm' h3
  obtain ⟨rest, hrest, hrX⟩ :=
    executePlans_no_skipped_executed beh X
      (r.refs.foldl registerSkip pm').pending.length
      { plans := r.refs.foldl registerSkip pm', responses := u.responses } le_rfl hX1
  simp only [foldl_registerSkip_executed] at hrest
  rw [hrest]
  constructor
  · exact List.take_left pm'.executed rest
  · rw [List.drop_left]
    exact List.all_eq_true.mpr fun e' he' => bne_iff_ne.mpr (hrX e' he')

/-- C5 witness: a concrete run where operation 10 returns a reference to
operation 20 (which would fault if invoked); the pending entry for
operation 20 is skipped, so the abort record holds only the entry for
operation 10 and nothing with operation 20. -/
theorem executePlans_skip_references_witness :
    (executePlans skipDemoBeh
        ⟨⟨[⟨0, 10, 0⟩, ⟨0, 20, 0⟩], [], []⟩, []⟩).2.plans.executed.take 1
        = [⟨0, 10, 0⟩] ∧
      ((executePlans skipDemoBeh
          ⟨⟨[⟨0, 10, 0⟩, ⟨0, 20, 0⟩], [], []⟩, []⟩).2.plans.executed.drop 1).all
        (fun e' => e'.func != 20) = true :=
  executePlans_skip_references skipDemoBeh ⟨⟨[⟨0, 10, 0⟩, ⟨0, 20, 0⟩], [], []⟩, []⟩
    ⟨0, 10, 0⟩ ⟨[⟨0, 20, 0⟩], [⟨0, 10, 0⟩], []⟩ (SkipRet.fn 20) 20 rfl rfl (by decide)

/-- C1: the claim says a single compensating-call fault is appended to
`update.responses` and unwinding continues.  In the code the handler's
first action on a fresh fault is `responseMessages.append(...)`, and
`responseMessages` is unbound, so a `NameError` propagates out of
`abortPlans`: on a concrete abort run whose first compensating call
faults, nothing is appended to `responses` and the function does not
continue (it raises). -/
theorem abortPlans_single_fault_bug :
    abortPlans abortDemoBeh ⟨⟨[], [⟨0, 0, 0⟩, ⟨0, 1, 0⟩], []⟩, []⟩ false
      = AbortResult.raised (PyError.nameError "responseMessages")
          ⟨⟨[], [⟨0, 0, 0⟩], []⟩, []⟩ :=
  abortPlans_exc_first abortDemoBeh ⟨⟨[], [⟨0, 0, 0⟩, ⟨0, 1, 0⟩], []⟩, []⟩
    ⟨0, 1, 0⟩ ⟨[], [⟨0, 0, 0⟩], []⟩ "boom" "tb" rfl rfl

/-- C2: the claim says faults inside operations never escape the engine.
`executePlans` does catch them (see the C4 theorem), but `abortPlans`
does not: on a concrete abort run whose second compensating call faults
(after a successful first one), the `NameError` raised inside the
exception handler propagates out of `abortPlans` instead of a boolean
being returned. -/
theorem abortPlans_escapes_engine_boundary :
    abortPlans abortDemoBeh ⟨⟨[], [⟨0, 1, 0⟩, ⟨0, 0, 0⟩], []⟩, []⟩ false
      = AbortResult.raised (PyError.nameError "responseMessages") ⟨⟨[], [], []⟩, []⟩ := by
  rw [abortPlans_ok_step abortDemoBeh ⟨⟨[], [⟨0, 1, 0⟩, ⟨0, 0, 0⟩], []⟩, []⟩ false
    ⟨0, 0, 0⟩ ⟨[], [⟨0, 1, 0⟩], []⟩ SkipRet.pyNone rfl rfl]
  exact abortPlans_exc_first abortDemoBeh ⟨⟨[], [⟨0, 1, 0⟩], []⟩, []⟩ ⟨0, 1, 0⟩
    ⟨[], [], []⟩ "boom" "tb" rfl rfl

/-- C3: the claim says two consecutive abort faults yield `True` (FATAL)
after exactly two recorded faults.  In the code that path is unreachable:
on a concrete abort run whose two next compensating calls would both
fault, the very first fault raises the handler's `NameError`, with zero
faults recorded, `sameError` never set, and the second entry (operation
2) never attempted — it is still in the abort record at propagation. -/
theorem abortPlans_double_fault_bug :
    abortPlans abortDemoBeh ⟨⟨[], [⟨0, 3, 0⟩, ⟨0, 2, 0⟩, ⟨0, 1, 0⟩], []⟩, []⟩ false
      = AbortResult.raised (PyError.nameError "responseMessages")
          ⟨⟨[], [⟨0, 3, 0⟩, ⟨0, 2, 0⟩], []⟩, []⟩ :=
  abortPlans_exc_first abortDemoBeh ⟨⟨[], [⟨0, 3, 0⟩, ⟨0, 2, 0⟩, ⟨0, 1, 0⟩], []⟩, []⟩
    ⟨0, 1, 0⟩ ⟨[], [⟨0, 3, 0⟩, ⟨0, 2, 0⟩], []⟩ "boom" "tb" rfl rfl

end Exc

/-- C9: `isValid` returns `True` exactly when the chute's name is a
non-empty string; a chute whose name is absent (`None`) or the empty
string is never valid. -/
theorem chute_isValid_iff (c : Chute) :
    c.isValid = true ↔ ∃ s, c.name = some s ∧ s ≠ "" := by
  cases hn : c.name with
  | none => simp [Chute.isValid, hn]
  | some s =>
    simp only [Chute.isValid, hn]
    by_cases hs : s = ""
    · subst hs; simp
    · have : s.isEmpty = false := by
        cases he : s.isEmpty
        · rfl
        · exact absurd (String.isEmpty_iff s |>.mp he) hs
      have hlen : (s.length == 0) = false := by
        rw [beq_eq_false_iff_ne]
        intro hzero
        apply hs
        obtain ⟨data⟩ := s
        cases data with
        | nil => rfl
        | cons c cs => simp [String.length] at hzero
      simp [this, hlen, hs]

/-- C9 witness: the concrete chutes from the spec scenario — an absent
name and an empty name are invalid, a non-empty name is valid. -/
theorem chute_isValid_iff_witness :
    ({ name := some "web" : Chute }).isValid = true ∧
      ({ name := none : Chute }).isValid = false ∧
      ({ name := some "" : Chute }).isValid = false := by
  refine ⟨(chute_isValid_iff { name := some "web" }).mpr ⟨"web", rfl, by decide⟩, ?_, ?_⟩
  · refine Bool.eq_false_iff.mpr fun h => ?_
    rcases (chute_isValid_iff { name := none }).mp h with ⟨s, hs, _⟩
    exact Option.noConfusion hs
  · refine Bool.eq_false_iff.mpr fun h => ?_
    rcases (chute_isValid_iff { name := some "" }).mp h with ⟨s, hs, hne⟩
    exact hne (Option.some.inj hs).symm

/-- C8: on a chute with a non-empty services dict, `get_default_service`
returns the service bound to `"main"` when that key is present, and
otherwise the service bound to the lexicographically smallest key. -/
theorem chute_get_default_service_spec (c : Chute) (h : c.services ≠ []) :
    (∀ s, c.services.lookup "main" = some s → c.get_default_service = Except.ok s) ∧
      (c.services.lookup "main" = none →
        ∃ k s, minKey c.services = some k ∧
          (∀ k' ∈ c.services.map Prod.fst, k ≤ k') ∧
          c.services.lookup k = some s ∧
          c.get_default_service = Except.ok s) := by
  constructor
  · intro s hs
    simp [Chute.get_default_service, hs]
  · intro hmain
    obtain ⟨p, rest, hpr⟩ : ∃ p rest, c.services = p :: rest := by
      cases hc : c.services with
      | nil => exact absurd hc h
      | cons p rest => exact ⟨p, rest, rfl⟩
    have hmk : (minKey c.services).isSome := by
      rw [hpr]
      simp only [minKey]
      cases minKey rest <;> simp
    obtain ⟨k, hk⟩ := Option.isSome_iff_exists.mp hmk
    have hkmem := minKey_mem hk
    have hlk := lookup_isSome_of_mem_keys hkmem
    obtain ⟨s, hs⟩ := Option.isSome_iff_exists.mp hlk
    refine ⟨k, s, hk, minKey_le hk, hs, ?_⟩
    simp [Chute.get_default_service, hmain, hk, hs]

/-- C8 witness: the spec's two examples.  With services
`{"b": _, "a": _}` (no `"main"`) the `"a"` service is returned; with
`{"main": _, "a": _}` the `"main"` service is returned. -/
theorem chute_get_default_service_spec_witness :
    ({ name := some "x", services := [("b", 2), ("a", 1)] : Chute }).get_default_service
        = Except.ok 1 ∧
      ({ name := some "x", services := [("main", 7), ("a", 1)] : Chute }).get_default_service
        = Except.ok 7 := by
  constructor
  · obtain ⟨k, s, hk, _, hs, hres⟩ :=
      (chute_get_default_service_spec
        { name := some "x", services := [("b", 2), ("a", 1)] } (by decide)).2 (by decide)
    have hmk : minKey [("b", 2), ("a", 1)] = some "a" := by
      simp only [minKey]
      rw [min_eq_right (String.le_iff_toList_le.mpr (by decide))]
    rw [hmk] at hk
    have hk' : k = "a" := (Option.some.inj hk).symm
    subst hk'
    rw [show List.lookup "a" [("b", 2), ("a", 1)] = some 1 by decide] at hs
    have hs' : s = 1 := (Option.some.inj hs).symm
    subst hs'
    exact hres
  · exact (chute_get_default_service_spec
      { name := some "x", services := [("main", 7), ("a", 1)] } (by decide)).1 7 (by decide)

/-- C10: on a chute whose services dict is empty, `get_default_service`
raises (python: the `ValueError` from `min` on an empty sequence) rather
than returning any service. -/
theorem chute_get_default_service_empty (c : Chute) (h : c.services = []) :
    c.get_default_service = Except.error "ValueError: min() arg is an empty sequence" := by
  simp [Chute.get_default_service, h, minKey, List.lookup]

/-- C10 witness: a fresh chute with no services. -/
theorem chute_get_default_service_empty_witness :
    ({ name := some "x" : Chute }).get_default_service
      = Except.error "ValueError: min() arg is an empty sequence" :=
  chute_get_default_service_empty { name := some "x" } rfl

end Paradrop
